import Mathlib

/-!
Verification of the try_as derive pipeline: a shallow embedding of the
validation pass (parse_enum_definition in macros/src/lib.rs), of the token
emission of the derive macros, of the runtime semantics of the generated
trait implementations, and of the generic unwrap wrappers of the traits
crate, together with theorems about them.
-/

namespace TryAs

/-- A type-reference as written in the source. syn::Type values are stored
by clone and compared by structural equality of the written form, so the
embedding keeps them opaque and compares them as strings. -/
abbrev TypeRef := String

/-- A Rust identifier. -/
abbrev Ident := String

/-- The shape of one variant's fields (syn::Fields): no fields, named
fields, or positional unnamed fields. -/
inductive Fields where
  | unit : Fields
  | named : List (Ident × TypeRef) → Fields
  | unnamed : List TypeRef → Fields
deriving DecidableEq, Repr

/-- One enum variant as parse_enum_definition reads it (syn::Variant):
its identifier and its fields. -/
structure Variant where
  ident : Ident
  fields : Fields
deriving DecidableEq, Repr

/-- One generic parameter of the input definition (syn::GenericParam):
a type parameter, a lifetime parameter or a const parameter. -/
inductive GenericParam where
  | typeParam : Ident → GenericParam
  | lifetimeParam : Ident → GenericParam
  | constParam : Ident → GenericParam
deriving DecidableEq, Repr

/-- The data of a derive input (syn::Data): an enum, a struct or a union. -/
inductive Data where
  | enumData : List Variant → Data
  | structData : Data
  | unionData : Data
deriving DecidableEq, Repr

/-- A derive input (syn::DeriveInput): its identifier, its generic
parameters and its data. -/
structure DeriveInput where
  ident : Ident
  generics : List GenericParam
  data : Data
deriving DecidableEq, Repr

/-- The distinct aborts parse_enum_definition can produce. The first five
are its explicit panic calls; unwrapNone is the implicit Option::unwrap
abort reached when a variant is written with an empty positional field
list, so that fields.unnamed.first() is None. -/
inductive ParseError where
  | notAnEnum : ParseError
  | missingPayload : ParseError
  | namedFields : ParseError
  | tooManyFields : ParseError
  | duplicateType : ParseError
  | unwrapNone : ParseError
deriving DecidableEq, Repr

/-- The panic message attached to each abort, as written in the source;
the unwrapNone message is the standard library's Option::unwrap message,
not a message of this crate. -/
def ParseError.message : ParseError → String
  | ParseError.notAnEnum => "try_as::Into can only be derived from enums."
  | ParseError.missingPayload => "Every variant must have at least one unnamed field."
  | ParseError.namedFields => "Can\x27t have variant with named fields."
  | ParseError.tooManyFields => "Each enum variant can have at most one type."
  | ParseError.duplicateType => "Each enum variant type must be unique."
  | ParseError.unwrapNone => "called Option::unwrap() on a None value"

/-- EnumData from the source: the enum identifier and the list of
(variant identifier, variant payload type) pairs, in declaration order. -/
abbrev EnumData := Ident × List (Ident × TypeRef)

/-- The validation loop of parse_enum_definition: walk the variants in
declaration order, keeping the payload types seen so far (the HashSet,
modelled as a list queried by membership) and accumulating the
(identifier, payload type) pairs in order. -/
def collectVariants (seen : List TypeRef) : List Variant → Except ParseError (List (Ident × TypeRef))
  | [] => Except.ok []
  | v :: rest =>
    match v.fields with
    | Fields.unit => Except.error ParseError.missingPayload
    | Fields.named _ => Except.error ParseError.namedFields
    | Fields.unnamed ts =>
      if ts.length > 1 then Except.error ParseError.tooManyFields
      else
        match ts.head? with
        | none => Except.error ParseError.unwrapNone
        | some t =>
          if t ∈ seen then Except.error ParseError.duplicateType
          else (collectVariants (t :: seen) rest).map (fun cs => (v.ident, t) :: cs)

/-- parse_enum_definition from macros/src/lib.rs: reject non-enum inputs,
then validate the variants in order. The generics of the input are never
inspected. -/
def parse_enum_definition (input : DeriveInput) : Except ParseError EnumData :=
  match input.data with
  | Data.enumData vs => (collectVariants [] vs).map (fun cs => (input.ident, cs))
  | _ => Except.error ParseError.notAnEnum

/-- A runtime value of a container enum: the index of the held variant in
declaration order, and the payload it wraps. The payload universe V is a
parameter of the model because the generated code never inspects
payloads, it only wraps, unwraps and borrows them. -/
structure Container (V : Type) where
  caseIdx : Nat
  payload : V
deriving DecidableEq, Repr

/-- Semantics of the From impl emitted by gen_from_impls for the case at
index j: from(a) = Self::ident(a). -/
def from_case {V : Type} (j : Nat) (v : V) : Container V :=
  Container.mk j v

/-- Semantics of the TryInto impl emitted by gen_try_into_impl for the
case at index j: if let Self::ident(a) = self then Ok(a) else
Err(self), with Error = Self. -/
def try_into_case {V : Type} (j : Nat) (c : Container V) : Except (Container V) V :=
  if c.caseIdx = j then Except.ok c.payload else Except.error c

/-- Semantics of the TryAsRef impl emitted by gen_try_as_ref for the case
at index j: if let Self::ident(a) = self then Some(a) else None, read
through a shared borrow. -/
def try_as_ref_case {V : Type} (j : Nat) (c : Container V) : Option V :=
  if c.caseIdx = j then some c.payload else none

/-- Semantics of the TryAsMut impl emitted by gen_try_as_mut for the case
at index j, viewed as the value the returned exclusive borrow points
at when one is returned. -/
def try_as_mut_case {V : Type} (j : Nat) (c : Container V) : Option V :=
  if c.caseIdx = j then some c.payload else none

/-- Writing w through the borrow returned by try_as_mut when it returns
one: the payload is replaced in place and the held case is unchanged;
when it returns None nothing is written and the container is untouched. -/
def write_via_mut {V : Type} (j : Nat) (w : V) (c : Container V) : Container V :=
  match try_as_mut_case j c with
  | some _ => Container.mk c.caseIdx w
  | none => c

/-- The observable outcome of a call that may panic. -/
inductive PanicResult (α : Type) where
  | ok : α → PanicResult α
  | panicked : PanicResult α
deriving DecidableEq, Repr

/-- Result::unwrap: the success value, or an abort on Err. -/
def resultUnwrap {ε α : Type} : Except ε α → PanicResult α
  | Except.ok a => PanicResult.ok a
  | Except.error _ => PanicResult.panicked

/-- Option::unwrap: the value, or an abort on None. -/
def optionUnwrap {α : Type} : Option α → PanicResult α
  | some a => PanicResult.ok a
  | none => PanicResult.panicked

/-- unwrap_into from the traits crate, a blanket adapter over an arbitrary
TryInto implementation: self.try_into().unwrap(). -/
def unwrap_into {P ε α : Type} (tryIntoFn : P → Except ε α) (p : P) : PanicResult α :=
  resultUnwrap (tryIntoFn p)

/-- unwrap_as_ref from the traits crate, a blanket adapter over an
arbitrary TryAsRef implementation: self.try_as_ref().unwrap(). -/
def unwrap_as_ref {P α : Type} (tryAsRefFn : P → Option α) (p : P) : PanicResult α :=
  optionUnwrap (tryAsRefFn p)

/-- unwrap_as_mut from the traits crate, a blanket adapter over an
arbitrary TryAsMut implementation: self.try_as_mut().unwrap(). -/
def unwrap_as_mut {P α : Type} (tryAsMutFn : P → Option α) (p : P) : PanicResult α :=
  optionUnwrap (tryAsMutFn p)

/-- A token of emitted Rust source. -/
abbrev Token := String

/-- The tokens of one From impl block emitted by gen_from_impls for one
(variant identifier, payload type) pair. -/
def fromImplTokens (enumIdent vIdent : Ident) (ty : TypeRef) : List Token :=
  ["impl", "From", "<", ty, ">", "for", enumIdent, "\x7b",
   "fn", "from", "(", "a", ":", ty, ")", "->", enumIdent, "\x7b",
   "Self", "::", vIdent, "(", "a", ")", "\x7d", "\x7d"]

/-- gen_from_impls from macros/src/lib.rs: one From impl block per case,
concatenated without separators. -/
def gen_from_impls (e : EnumData) : List Token :=
  (e.2.map (fun p => fromImplTokens e.1 p.1 p.2)).flatten

/-- The tokens of one match arm emitted by gen_typed_value; the quote
template itself ends every arm with a comma. -/
def typeIdArmTokens (enumIdent vIdent : Ident) (ty : TypeRef) : List Token :=
  [enumIdent, "::", vIdent, "(", "_", ")", "=>",
   "TypeId", "::", "of", "::", "<", ty, ">", "(", ")", ","]

/-- gen_typed_value from macros/src/lib.rs: the single block emitted for
the TypedContainer derive. The header is written impl traits::TypedValue
with no for clause naming the enum, and the arms are joined with an
additional comma separator coming from the quote repetition. -/
def gen_typed_value (e : EnumData) : List Token :=
  ["impl", "traits", "::", "TypedValue", "\x7b",
   "fn", "type_id", "(", "&", "self", ")", "->",
   "std", "::", "any", "::", "TypeId", "\x7b",
   "match", "self", "\x7b"]
  ++ List.intercalate [","] (e.2.map (fun p => typeIdArmTokens e.1 p.1 p.2))
  ++ ["\x7d", "\x7d", "\x7d"]

/-- True when the token list contains two commas in adjacent positions. -/
def hasAdjacentCommas (l : List Token) : Bool :=
  (l.zip l.tail).any (fun p => p.1 == "," && p.2 == ",")

/-- Rename every variant identifier of an input, leaving everything else
unchanged. -/
def renameVariants (f : Ident → Ident) (d : DeriveInput) : DeriveInput :=
  DeriveInput.mk d.ident d.generics
    (match d.data with
      | Data.enumData vs => Data.enumData (vs.map (fun v => Variant.mk (f v.ident) v.fields))
      | other => other)

/-- The documentation's example enum Value with cases Number(i64),
String(String) and Bool(bool). -/
def valueInput : DeriveInput :=
  DeriveInput.mk ("Value") []
    (Data.enumData
      [Variant.mk ("Number") (Fields.unnamed ["i64"]),
       Variant.mk ("String") (Fields.unnamed ["String"]),
       Variant.mk ("Bool") (Fields.unnamed ["bool"])])

/-- The EnumData parse_enum_definition extracts from valueInput. -/
def valueEnumData : EnumData :=
  ("Value", [("Number", "i64"), ("String", "String"), ("Bool", "bool")])

/-- A definition carrying a type parameter but otherwise valid variants:
enum Foo of T with the single case Bar(u32). -/
def genericInput : DeriveInput :=
  DeriveInput.mk ("Foo") [GenericParam.typeParam ("T")]
    (Data.enumData [Variant.mk ("Bar") (Fields.unnamed ["u32"])])

/-- enum E with the single case A(), a variant written with an empty
positional field list. -/
def emptyFieldsInput : DeriveInput :=
  DeriveInput.mk ("E") []
    (Data.enumData [Variant.mk ("A") (Fields.unnamed [])])

/-- enum Foo whose case Baz has a named field x of type u32. -/
def namedInputA : DeriveInput :=
  DeriveInput.mk ("Foo") []
    (Data.enumData [Variant.mk ("Baz") (Fields.named [("x", "u32")])])

/-- The same definition with the offending case renamed to Qux. -/
def namedInputB : DeriveInput :=
  DeriveInput.mk ("Foo") []
    (Data.enumData [Variant.mk ("Qux") (Fields.named [("x", "u32")])])

/-- An enum whose two payload types are different spellings, one of which
may be an alias of the other: cases I(i64) and A(MyAlias). -/
def aliasInput : DeriveInput :=
  DeriveInput.mk ("Num") []
    (Data.enumData
      [Variant.mk ("I") (Fields.unnamed ["i64"]),
       Variant.mk ("A") (Fields.unnamed ["MyAlias"])])

/-- C5 counterexample: a definition declaring a type parameter is accepted
by schema extraction rather than rejected with a generics error; no
generics check exists in parse_enum_definition. -/
theorem c5_generic_input_accepted :
    parse_enum_definition genericInput = Except.ok ("Foo", [("Bar", "u32")]) := by
  rfl

/-- C5 amended: schema extraction never inspects the generic parameters of
the input; its result is invariant under replacing them by any other
list of parameters, so a definition is never rejected for carrying
type, lifetime or const parameters. -/
theorem c5_parse_ignores_generics (d : DeriveInput) (g : List GenericParam) :
    parse_enum_definition (DeriveInput.mk d.ident g d.data) = parse_enum_definition d := by
  rfl

/-- C7: a variant with an empty positional field list, as in enum E with
the case A(), has no payload field but aborts through Option::unwrap on
None rather than with the distinct missing-payload diagnostic. -/
theorem c7_empty_fields_unwrap_abort :
    parse_enum_definition emptyFieldsInput = Except.error ParseError.unwrapNone
    ∧ ParseError.unwrapNone.message ≠ ParseError.missingPayload.message := by
  exact ⟨rfl, by decide⟩

/-- C8 counterexample: two definitions whose offending cases differ, Baz
against Qux, abort with the same error and hence the same message, so
the diagnostic does not identify the offending case. -/
theorem c8_message_misses_case :
    parse_enum_definition namedInputA = Except.error ParseError.namedFields
    ∧ parse_enum_definition namedInputB = Except.error ParseError.namedFields
    ∧ namedInputA ≠ namedInputB := by
  exact ⟨rfl, rfl, by decide⟩

/-- C1: the block emitted for the TypedContainer derive on the documented
Value enum never mentions the TypedContainer trait and contains no for
clause, so no type_id or holds implementation is ever attached to the
container type and the claimed runtime behaviour never comes to exist. -/
theorem c1_typed_container_never_implemented :
    ("TypedContainer" ∉ gen_typed_value valueEnumData)
    ∧ ("for" ∉ gen_typed_value valueEnumData) := by
  decide

/-- C6: on the documented Value enum the TypeIdentification emission is
not a well-formed impl naming the container: its header up to the first
opening brace is impl traits::TypedValue, which does not mention Value,
and the emitted match arms contain doubled commas. -/
theorem c6_typed_value_emission_malformed :
    ((gen_typed_value valueEnumData).takeWhile (fun t => t != "\x7b")
        = ["impl", "traits", "::", "TypedValue"])
    ∧ ("Value" ∉ (gen_typed_value valueEnumData).takeWhile (fun t => t != "\x7b"))
    ∧ hasAdjacentCommas (gen_typed_value valueEnumData) = true := by
  exact ⟨by decide, by decide, by rfl⟩

/-- C9: the unwrap wrappers of the traits crate are generic adapters over
the fallible primitives: each returns exactly the success value when the
primitive it wraps succeeds, and panics exactly when it fails. -/
theorem c9_unwrap_wrappers_adapt {P ε α : Type} (tryIntoFn : P → Except ε α)
    (tryAsRefFn tryAsMutFn : P → Option α) (p : P) (v : α) :
    (unwrap_into tryIntoFn p = PanicResult.ok v ↔ tryIntoFn p = Except.ok v)
    ∧ (unwrap_into tryIntoFn p = PanicResult.panicked ↔ ∃ e, tryIntoFn p = Except.error e)
    ∧ (unwrap_as_ref tryAsRefFn p = PanicResult.ok v ↔ tryAsRefFn p = some v)
    ∧ (unwrap_as_ref tryAsRefFn p = PanicResult.panicked ↔ tryAsRefFn p = none)
    ∧ (unwrap_as_mut tryAsMutFn p = PanicResult.ok v ↔ tryAsMutFn p = some v)
    ∧ (unwrap_as_mut tryAsMutFn p = PanicResult.panicked ↔ tryAsMutFn p = none) := by
  refine ⟨?_, ?_, ?_, ?_, ?_, ?_⟩
  · cases h : tryIntoFn p <;> simp [unwrap_into, resultUnwrap, h]
  · cases h : tryIntoFn p <;> simp [unwrap_into, resultUnwrap, h]
  · cases h : tryAsRefFn p <;> simp [unwrap_as_ref, optionUnwrap, h]
  · cases h : tryAsRefFn p <;> simp [unwrap_as_ref, optionUnwrap, h]
  · cases h : tryAsMutFn p <;> simp [unwrap_as_mut, optionUnwrap, h]
  · cases h : tryAsMutFn p <;> simp [unwrap_as_mut, optionUnwrap, h]

/-- C3: converting a payload into the container through the From impl of a
case and converting back through the TryInto impl of the same case
succeeds and yields the original value, for every enum accepted by
validation. -/
theorem c3_round_trip {V : Type} (d : DeriveInput) (n : Ident)
    (cs : List (Ident × TypeRef)) (h : parse_enum_definition d = Except.ok (n, cs))
    (j : Nat) (nm : Ident) (T : TypeRef) (hcase : cs.get? j = some (nm, T)) (v : V) :
    try_into_case j (from_case j v) = Except.ok v := by
  simp [try_into_case, from_case]

/-- C3 witness: the round trip of the documented scenario, Number(7)
converted back to i64. -/
theorem c3_round_trip_witness :
    try_into_case 0 (from_case 0 (7 : Int)) = Except.ok 7 :=
  c3_round_trip valueInput ("Value") valueEnumData.2 rfl 0 ("Number") ("i64") rfl 7

/-- Helper: a successful validation pass yields payload types that are
pairwise distinct and disjoint from the types already seen. -/
theorem collectVariants_ok_types (vs : List Variant) :
    ∀ (seen : List TypeRef) (cs : List (Ident × TypeRef)),
      collectVariants seen vs = Except.ok cs →
      (cs.map Prod.snd).Nodup ∧ ∀ t ∈ cs.map Prod.snd, t ∉ seen := by
  induction vs with
  | nil =>
    intro seen cs h
    simp only [collectVariants, Except.ok.injEq] at h
    subst h
    simp
  | cons v rest ih =>
    intro seen cs h
    rcases v with ⟨vi, vf⟩
    cases vf with
    | unit => simp [collectVariants] at h
    | named fs => simp [collectVariants] at h
    | unnamed ts =>
      simp only [collectVariants] at h
      by_cases hlen : ts.length > 1
      · rw [if_pos hlen] at h
        simp at h
      · rw [if_neg hlen] at h
        cases hts : ts.head? with
        | none => rw [hts] at h; simp at h
        | some t =>
          simp only [hts] at h
          by_cases htm : t ∈ seen
          · rw [if_pos htm] at h; simp at h
          · rw [if_neg htm] at h
            cases hcv : collectVariants (t :: seen) rest with
            | error e => rw [hcv] at h; simp [Except.map] at h
            | ok cs0 =>
              rw [hcv] at h
              simp only [Except.map, Except.ok.injEq] at h
              subst h
              obtain ⟨hnd0, hfresh0⟩ := ih (t :: seen) cs0 hcv
              constructor
              · simp only [List.map_cons, List.nodup_cons]
                refine ⟨fun hmem => ?_, hnd0⟩
                have := hfresh0 t hmem
                simp at this
              · intro u hu
                simp only [List.map_cons, List.mem_cons] at hu
                rcases hu with hu | hu
                · subst hu; exact htm
                · have := hfresh0 u hu
                  intro huseen
                  exact this (List.mem_cons_of_mem t huseen)

/-- Helper: an accepted definition has pairwise distinct payload types. -/
theorem parse_ok_nodup (d : DeriveInput) (n : Ident) (cs : List (Ident × TypeRef))
    (h : parse_enum_definition d = Except.ok (n, cs)) : (cs.map Prod.snd).Nodup := by
  rcases d with ⟨i, g, dt⟩
  cases dt with
  | enumData vs =>
    simp only [parse_enum_definition] at h
    cases hcv : collectVariants [] vs with
    | error e => rw [hcv] at h; simp [Except.map] at h
    | ok cs0 =>
      rw [hcv] at h
      simp only [Except.map, Except.ok.injEq, Prod.mk.injEq] at h
      obtain ⟨-, h2⟩ := h
      subst h2
      exact (collectVariants_ok_types vs [] cs0 hcv).1
  | structData => simp [parse_enum_definition] at h
  | unionData => simp [parse_enum_definition] at h

/-- Helper: an entry read off a case list by index has its payload type in
the list of payload types. -/
theorem get_some_mem_snd (cs : List (Ident × TypeRef)) :
    ∀ (i : Nat) (n : Ident) (t : TypeRef),
      cs.get? i = some (n, t) → t ∈ cs.map Prod.snd := by
  induction cs with
  | nil => intro i n t h; simp at h
  | cons hd tl ih =>
    intro i n t h
    match i with
    | 0 =>
      rw [List.get?_cons_zero] at h
      simp only [Option.some.injEq] at h
      subst h
      simp
    | Nat.succ i0 =>
      rw [List.get?_cons_succ] at h
      exact List.mem_cons_of_mem _ (ih i0 n t h)

/-- Helper: when the payload types are pairwise distinct, a payload type
read at two indices forces the indices to agree. -/
theorem nodup_snd_index_unique (cs : List (Ident × TypeRef))
    (hnd : (cs.map Prod.snd).Nodup) :
    ∀ (i j : Nat) (ni nj : Ident) (t : TypeRef),
      cs.get? i = some (ni, t) → cs.get? j = some (nj, t) → i = j := by
  induction cs with
  | nil => intro i j ni nj t hi _; simp at hi
  | cons hd tl ih =>
    intro i j ni nj t hi hj
    simp only [List.map_cons, List.nodup_cons] at hnd
    obtain ⟨hhd, htl⟩ := hnd
    match i, j with
    | 0, 0 => rfl
    | 0, Nat.succ j0 =>
      exfalso
      rw [List.get?_cons_zero] at hi
      simp only [Option.some.injEq] at hi
      rw [List.get?_cons_succ] at hj
      have : t ∈ tl.map Prod.snd := get_some_mem_snd tl j0 nj t hj
      rw [hi] at hhd
      exact hhd this
    | Nat.succ i0, 0 =>
      exfalso
      rw [List.get?_cons_zero] at hj
      simp only [Option.some.injEq] at hj
      rw [List.get?_cons_succ] at hi
      have : t ∈ tl.map Prod.snd := get_some_mem_snd tl i0 ni t hi
      rw [hj] at hhd
      exact hhd this
    | Nat.succ i0, Nat.succ j0 =>
      rw [List.get?_cons_succ] at hi hj
      exact congrArg Nat.succ (ih htl i0 j0 ni nj t hi hj)

/-- Helper: for a case list with pairwise distinct payload types, the
payload type held at an index equals the payload type of the case at
index j exactly when the indices agree. -/
theorem held_type_eq_iff_index (cs : List (Ident × TypeRef))
    (hnd : (cs.map Prod.snd).Nodup) (j i : Nat) (nm : Ident) (T : TypeRef)
    (hcase : cs.get? j = some (nm, T)) (hnm : Ident) (hT : TypeRef)
    (hheld : cs.get? i = some (hnm, hT)) : hT = T ↔ i = j := by
  constructor
  · intro ht
    subst ht
    exact nodup_snd_index_unique cs hnd i j hnm nm hT hheld hcase
  · intro hij
    rw [hij] at hheld
    have := hcase.symm.trans hheld
    simp only [Option.some.injEq, Prod.mk.injEq] at this
    exact this.2.symm

/-- C2: for every enum accepted by validation, the TryInto impl generated
for the case with payload type T succeeds with the unwrapped payload
exactly when the container holds the case whose payload type is T, and
otherwise fails carrying the original container unchanged. -/
theorem c2_try_into_iff_holds {V : Type} (d : DeriveInput) (n : Ident)
    (cs : List (Ident × TypeRef)) (h : parse_enum_definition d = Except.ok (n, cs))
    (j : Nat) (nm : Ident) (T : TypeRef) (hcase : cs.get? j = some (nm, T))
    (c : Container V) (hnm : Ident) (hT : TypeRef)
    (hheld : cs.get? c.caseIdx = some (hnm, hT)) :
    (try_into_case j c = Except.ok c.payload ↔ hT = T)
    ∧ (hT ≠ T → try_into_case j c = Except.error c) := by
  have hnd := parse_ok_nodup d n cs h
  have hidx := held_type_eq_iff_index cs hnd j c.caseIdx nm T hcase hnm hT hheld
  constructor
  · constructor
    · intro hok
      by_cases hcj : c.caseIdx = j
      · exact hidx.mpr hcj
      · simp [try_into_case, hcj] at hok
    · intro ht
      simp [try_into_case, hidx.mp ht]
  · intro ht
    have hcj : c.caseIdx ≠ j := fun hc => ht (hidx.mpr hc)
    simp [try_into_case, hcj]

/-- C2 witness: the documented scenario, Number(7) converted to String
fails and the failure carries the original container unchanged. -/
theorem c2_try_into_iff_holds_witness :
    try_into_case 1 (Container.mk 0 (7 : Int)) = Except.error (Container.mk 0 (7 : Int)) :=
  (c2_try_into_iff_holds valueInput ("Value") valueEnumData.2 rfl 1 ("String") ("String")
      rfl (Container.mk 0 (7 : Int)) ("Number") ("i64") rfl).2 (by decide)

/-- C4: for every enum accepted by validation, the reference and mutable
projections generated for the case with payload type T succeed with the
payload exactly when the container holds the case whose payload type is
T; on every other held case they return None and writing through the
mutable projection leaves the container untouched; a value written
through a successful mutable projection is observed by a subsequent
reference projection of the same case. -/
theorem c4_projections_correct {V : Type} (d : DeriveInput) (n : Ident)
    (cs : List (Ident × TypeRef)) (h : parse_enum_definition d = Except.ok (n, cs))
    (j : Nat) (nm : Ident) (T : TypeRef) (hcase : cs.get? j = some (nm, T))
    (c : Container V) (hnm : Ident) (hT : TypeRef)
    (hheld : cs.get? c.caseIdx = some (hnm, hT)) (w : V) :
    (hT = T →
      try_as_ref_case j c = some c.payload
        ∧ try_as_mut_case j c = some c.payload
        ∧ try_as_ref_case j (write_via_mut j w c) = some w)
    ∧ (hT ≠ T →
      try_as_ref_case j c = none
        ∧ try_as_mut_case j c = none
        ∧ write_via_mut j w c = c) := by
  have hnd := parse_ok_nodup d n cs h
  have hidx := held_type_eq_iff_index cs hnd j c.caseIdx nm T hcase hnm hT hheld
  constructor
  · intro ht
    have hcj := hidx.mp ht
    refine ⟨by simp [try_as_ref_case, hcj], by simp [try_as_mut_case, hcj], ?_⟩
    simp [write_via_mut, try_as_mut_case, try_as_ref_case, hcj]
  · intro ht
    have hcj : c.caseIdx ≠ j := fun hc => ht (hidx.mpr hc)
    exact ⟨by simp [try_as_ref_case, hcj], by simp [try_as_mut_case, hcj],
      by simp [write_via_mut, try_as_mut_case, hcj]⟩

/-- C4 witness: on the documented Value enum, the projections of the i64
case on Number(8) succeed, and writing 9 through the mutable projection
is observed by a subsequent reference projection. -/
theorem c4_projections_correct_witness :
    try_as_ref_case 0 (Container.mk 0 (8 : Int)) = some 8
      ∧ try_as_mut_case 0 (Container.mk 0 (8 : Int)) = some 8
      ∧ try_as_ref_case 0 (write_via_mut 0 (9 : Int) (Container.mk 0 8)) = some 9 :=
  (c4_projections_correct valueInput ("Value") valueEnumData.2 rfl 0 ("Number") ("i64")
      rfl (Container.mk 0 (8 : Int)) ("Number") ("i64") rfl 9).1 rfl

/-- Helper: the validation loop never reads the variant identifiers on any
failure path; renaming them renames the extracted pairs on success and
leaves every error unchanged. -/
theorem collectVariants_rename (f : Ident → Ident) (vs : List Variant) :
    ∀ (seen : List TypeRef),
      collectVariants seen (vs.map (fun v => Variant.mk (f v.ident) v.fields)) =
        (collectVariants seen vs).map (fun cs => cs.map (fun p => (f p.1, p.2))) := by
  induction vs with
  | nil => intro seen; rfl
  | cons v rest ih =>
    intro seen
    rcases v with ⟨vi, vf⟩
    cases vf with
    | unit => rfl
    | named fs => rfl
    | unnamed ts =>
      simp only [List.map_cons, collectVariants]
      by_cases hlen : ts.length > 1
      · rw [if_pos hlen, if_pos hlen]
        rfl
      · rw [if_neg hlen, if_neg hlen]
        cases hts : ts.head? with
        | none => rfl
        | some t =>
          simp only []
          by_cases htm : t ∈ seen
          · rw [if_pos htm, if_pos htm]
            rfl
          · rw [if_neg htm, if_neg htm, ih (t :: seen)]
            cases collectVariants (t :: seen) rest <;> rfl

/-- C8 amended: each failure kind carries its own distinct fixed message,
so the diagnostic identifies the violated invariant; but the failure
produced for a definition is invariant under renaming its variants, so
the message cannot identify the offending case. -/
theorem c8_diagnostic_invariant_only :
    (∀ e₁ e₂ : ParseError, e₁.message = e₂.message → e₁ = e₂)
    ∧ ∀ (f : Ident → Ident) (d : DeriveInput) (e : ParseError),
        parse_enum_definition d = Except.error e →
        parse_enum_definition (renameVariants f d) = Except.error e := by
  constructor
  · intro e₁ e₂ h
    cases e₁ <;> cases e₂ <;> first | rfl | exact absurd h (by decide)
  · intro f d e h
    rcases d with ⟨i, g, dt⟩
    cases dt with
    | enumData vs =>
      simp only [parse_enum_definition, renameVariants] at h ⊢
      rw [collectVariants_rename f vs []]
      cases hcv : collectVariants [] vs with
      | error e0 =>
        rw [hcv] at h
        simp only [Except.map] at h ⊢
        exact h
      | ok cs =>
        rw [hcv] at h
        simp [Except.map] at h
    | structData => exact h
    | unionData => exact h

/-- C8 amended witness: the amended theorem applied to the concrete failing
definition namedInputA under a concrete renaming of its variants. -/
theorem c8_diagnostic_invariant_only_witness :
    parse_enum_definition (renameVariants (fun _ => "Qux") namedInputA) =
      Except.error ParseError.namedFields :=
  c8_diagnostic_invariant_only.2 (fun _ => "Qux") namedInputA ParseError.namedFields rfl

/-- Helper: on variants that each carry exactly one positional field, the
validation loop succeeds when the written payload types are pairwise
distinct and fresh, producing the pairs in declaration order. -/
theorem collectVariants_single_ok (vs : List Variant) :
    ∀ (ts : List TypeRef) (seen : List TypeRef),
      vs.map Variant.fields = ts.map (fun t => Fields.unnamed [t]) →
      ts.Nodup → (∀ t ∈ ts, t ∉ seen) →
      collectVariants seen vs = Except.ok ((vs.map Variant.ident).zip ts) := by
  induction vs with
  | nil =>
    intro ts seen hshape _ _
    cases ts with
    | nil => rfl
    | cons a l => simp at hshape
  | cons v rest ih =>
    intro ts seen hshape hnd hfresh
    cases ts with
    | nil => simp at hshape
    | cons t ts2 =>
      simp only [List.map_cons, List.cons.injEq] at hshape
      obtain ⟨hv, hrest⟩ := hshape
      rcases v with ⟨vi, vf⟩
      simp only at hv
      subst hv
      simp only [List.nodup_cons] at hnd
      have htseen : t ∉ seen := hfresh t (List.mem_cons_self t ts2)
      have hrec := ih ts2 (t :: seen) hrest hnd.2 (by
        intro u hu
        simp only [List.mem_cons]
        rintro (rfl | hus)
        · exact hnd.1 hu
        · exact hfresh u (List.mem_cons_of_mem t hu) hus)
      simp only [collectVariants]
      rw [if_neg (by simp)]
      simp only [List.head?]
      rw [if_neg htseen, hrec]
      rfl

/-- Helper: on variants that each carry exactly one positional field, the
validation loop fails with the duplicate-type error when the written
payload types are not pairwise distinct and fresh. -/
theorem collectVariants_single_dup (vs : List Variant) :
    ∀ (ts : List TypeRef) (seen : List TypeRef),
      vs.map Variant.fields = ts.map (fun t => Fields.unnamed [t]) →
      ¬ (ts.Nodup ∧ ∀ t ∈ ts, t ∉ seen) →
      collectVariants seen vs = Except.error ParseError.duplicateType := by
  induction vs with
  | nil =>
    intro ts seen hshape hbad
    exfalso
    apply hbad
    cases ts with
    | nil => simp
    | cons a l => simp at hshape
  | cons v rest ih =>
    intro ts seen hshape hbad
    cases ts with
    | nil => simp at hshape
    | cons t ts2 =>
      simp only [List.map_cons, List.cons.injEq] at hshape
      obtain ⟨hv, hrest⟩ := hshape
      rcases v with ⟨vi, vf⟩
      simp only at hv
      subst hv
      simp only [collectVariants]
      rw [if_neg (by simp)]
      simp only [List.head?]
      by_cases htseen : t ∈ seen
      · rw [if_pos htseen]
      · rw [if_neg htseen]
        have hrec : ¬ (ts2.Nodup ∧ ∀ u ∈ ts2, u ∉ t :: seen) := by
          intro ⟨hnd2, hfresh2⟩
          apply hbad
          constructor
          · simp only [List.nodup_cons]
            refine ⟨fun htm => ?_, hnd2⟩
            exact hfresh2 t htm (List.mem_cons_self t seen)
          · intro u hu
            simp only [List.mem_cons] at hu
            rcases hu with rfl | hu
            · exact htseen
            · intro hus
              exact hfresh2 u hu (List.mem_cons_of_mem t hus)
        rw [ih ts2 (t :: seen) hrest hrec]
        rfl

/-- C10: validation never inspects the inside of a payload type-reference;
a definition whose variants each carry exactly one positional field of
arbitrarily written payload types is accepted exactly when those written
forms are pairwise distinct, yielding the cases in declaration order,
and otherwise is rejected with the duplicate-type error; so any two
different spellings, alias and expansion included, count as distinct. -/
theorem c10_validation_is_nominal (name : Ident) (g : List GenericParam)
    (vs : List Variant) (ts : List TypeRef)
    (hshape : vs.map Variant.fields = ts.map (fun t => Fields.unnamed [t])) :
    (parse_enum_definition (DeriveInput.mk name g (Data.enumData vs)) =
        Except.ok (name, (vs.map Variant.ident).zip ts) ↔ ts.Nodup)
    ∧ (¬ ts.Nodup →
        parse_enum_definition (DeriveInput.mk name g (Data.enumData vs)) =
          Except.error ParseError.duplicateType) := by
  have hdup : ¬ ts.Nodup →
      parse_enum_definition (DeriveInput.mk name g (Data.enumData vs)) =
        Except.error ParseError.duplicateType := by
    intro hnd
    have := collectVariants_single_dup vs ts [] hshape (fun hc => hnd hc.1)
    simp only [parse_enum_definition]
    rw [this]
    rfl
  refine ⟨⟨fun hok => ?_, fun hnd => ?_⟩, hdup⟩
  · by_contra hnd
    rw [hdup hnd] at hok
    exact absurd hok (by simp)
  · have := collectVariants_single_ok vs ts [] hshape hnd (by simp)
    simp only [parse_enum_definition]
    rw [this]
    rfl

/-- C10 witness: the alias example, cases I(i64) and A(MyAlias); the two
spellings are distinct written forms, so the definition is accepted with
both cases kept apart even if MyAlias abbreviates i64. -/
theorem c10_validation_is_nominal_witness :
    parse_enum_definition aliasInput = Except.ok ("Num", [("I", "i64"), ("A", "MyAlias")]) :=
  (c10_validation_is_nominal ("Num") []
      [Variant.mk ("I") (Fields.unnamed ["i64"]), Variant.mk ("A") (Fields.unnamed ["MyAlias"])]
      ["i64", "MyAlias"] rfl).1.mpr (by decide)

end TryAs
